import Mathlib

/-!
Shallow embedding of the Wave Function Collapse tilemap engine from
`src/wfc` (`tile.py`, `cell.py`, `tilemap.py`, `tileset.py`), together with
proofs about it.  Edge strings are embedded as lists of characters, Python
sets of tiles as `Finset Tile`, and the mutable `TileMap` object as an
explicit state record.
-/

/-- The four cardinal directions (the `Direction` literal type in `wfc/types.py`). -/
inductive Dir where
  | north
  | east
  | south
  | west
deriving DecidableEq

/-- Modelled from the spec: `DIRECTION_NAMES` from the missing `wfc/constants.py`:
the direction names in NESW order, matching the order of `types.Direction`, the
NESW order documented in `tileset._parse_edges`, and the spec's
north/east/south/west edge order (§3). -/
def DIRECTION_NAMES : List Dir := [Dir.north, Dir.east, Dir.south, Dir.west]

/-- Index of a direction inside `DIRECTION_NAMES` (what
`DIRECTIONS.keys().index(direction)` computes in `tileset._are_compatible`). -/
def dirIndex : Dir → Nat
  | Dir.north => 0
  | Dir.east => 1
  | Dir.south => 2
  | Dir.west => 3

/-- Modelled from the spec: `DIRECTIONS` from the missing `wfc/constants.py`,
mapping each direction to its `(dx, dy)` grid offset in the 4-directional
N/E/S/W topology of the spec (§3), with y growing downwards as in the
rendering code. -/
def DIRECTIONS : Dir → Int × Int
  | Dir.north => (0, -1)
  | Dir.east => (1, 0)
  | Dir.south => (0, 1)
  | Dir.west => (-1, 0)

/-- The direction opposite to `d`, computed the way both compatibility
functions do: `DIRECTION_NAMES[(index(d) + 2) % len(DIRECTION_NAMES)]`. -/
def oppositeDir (d : Dir) : Dir :=
  DIRECTION_NAMES.getD ((dirIndex d + 2) % DIRECTION_NAMES.length) Dir.north

/-- A tile (`Tile` in `wfc/tile.py`): an integer id and four edge strings.
`Tile.__eq__` compares id and edges, which is exactly structural equality of
this record (the image field is ignored by `__eq__` and irrelevant here). -/
structure Tile where
  id : Nat
  north : List Char
  east : List Char
  south : List Char
  west : List Char
deriving DecidableEq

/-- The edge dictionary `tile.edges[direction]` built by `Tile._init_edges`. -/
def Tile.edges (t : Tile) : Dir → List Char
  | Dir.north => t.north
  | Dir.east => t.east
  | Dir.south => t.south
  | Dir.west => t.west

/-- `tileset._are_compatible(tile_a, tile_b, direction)`: the edge of `tile_a`
facing `direction` must equal the reverse of the edge of `tile_b` facing the
opposite direction. -/
def are_compatible (tile_a tile_b : Tile) (direction : Dir) : Bool :=
  tile_a.edges direction == (tile_b.edges (oppositeDir direction)).reverse

/-- `tilemap.compatible(tile_a, tile_b, direction)`: the same check, with the
direction passed as the `(index, name)` pair produced by
`enumerate(DIRECTION_NAMES)` at every call site. -/
def compatible (tile_a tile_b : Tile) (direction : Nat × Dir) : Bool :=
  tile_a.edges direction.2 ==
    (tile_b.edges
      (DIRECTION_NAMES.getD ((direction.1 + 2) % DIRECTION_NAMES.length) Dir.north)).reverse

/-- `TileMap.build_rules`, flattened to a lookup: the entry of the rule table
for tile id `i` and direction `d`.  The Python loop adds `tile` to
`rules[_tile.id][d]` whenever `compatible(_tile, tile, (idx, d))`, so the entry
for id `i` collects the compatible tiles of *every* catalog tile whose id is
`i` (ids sharing the same key are merged; an id not in the catalog, which would
be a `KeyError` in Python, yields the empty set here). -/
def build_rules (tiles : List Tile) (i : Nat) (d : Dir) : Finset Tile :=
  (tiles.filter (fun b =>
    tiles.any (fun a => a.id == i && compatible a b (dirIndex d, d)))).toFinset

/-- The per-tile ruleset `tile.rules[d]` as it stands after
`tileset._build_rules(tiles)` has run: `Tile.add_compatible_tile` has added
every `b` of the catalog with `_are_compatible(a, b, d)`, this is
`a.get_compatible_tiles(d)`. -/
def get_compatible_tiles (tiles : List Tile) (a : Tile) (d : Dir) : Finset Tile :=
  (tiles.filter (fun b => are_compatible a b d)).toFinset

/-- Modelled error outcomes of the Python code: the builtin `IndexError`
raised by `random().choice(())` on an empty tuple ("Cannot choose from an
empty sequence"), and `NoSolutionException` from `wfc/exception.py`, which is
defined and caught in `tilemap.py` but raised nowhere in the repository. -/
inductive PyErr where
  | indexError
  | noSolution
deriving DecidableEq

/-- The mutable state of a `TileMap` object (`wfc/tilemap.py`).  Cells are
identified by their `(x, y)` coordinate; `gen` models the Python object
identity of the cell array across `init_cells` rebuilds: the `history` dict is
keyed by `Cell` object, so entries recorded for a discarded cell array can
never match a rebuilt cell, which the embedding captures by keying history
entries with `(gen, x, y)`. -/
structure WState where
  width : Nat
  height : Nat
  tiles : List Tile
  gen : Nat
  options : Nat × Nat → Finset Tile
  stack : List (Nat × Nat)
  history : List ((Nat × Nat × Nat) × Finset Tile)
  contradictions : Nat

/-- Upsert into the `history` dict (`self.history[cell] = options`). -/
def histSet (h : List ((Nat × Nat × Nat) × Finset Tile)) (k : Nat × Nat × Nat)
    (v : Finset Tile) : List ((Nat × Nat × Nat) × Finset Tile) :=
  (k, v) :: h.filter (fun q => !(q.1 == k))

/-- Lookup in the `history` dict. -/
def histGet (h : List ((Nat × Nat × Nat) × Finset Tile)) (k : Nat × Nat × Nat) :
    Option (Finset Tile) :=
  (h.find? (fun q => q.1 == k)).map (fun q => q.2)

/-- `self.history.pop(cell, default)`: remove and return the entry for `k`,
or the default when absent. -/
def histPop (h : List ((Nat × Nat × Nat) × Finset Tile)) (k : Nat × Nat × Nat)
    (dflt : Finset Tile) : Finset Tile × List ((Nat × Nat × Nat) × Finset Tile) :=
  match h.find? (fun q => q.1 == k) with
  | some q => (q.2, h.filter (fun r => !(r.1 == k)))
  | none => (dflt, h)

/-- Python's `%` of an int by a positive modulus (always non-negative). -/
def pymod (i : Int) (m : Nat) : Nat := (i.emod (m : Int)).toNat

/-- `TileMap._get_neighbors`: for every direction offset `(dx, dy)` the code
adds the cell at `((x+dx) % width, y)` and the cell at `(x, (y+dy) % height)`.
Note that this set always contains the cell itself: offsets with `dx = 0`
contribute `(x, y)` through the first component (and symmetrically for
`dy = 0`).  The Python set is embedded as a deduplicated list in generation
order. -/
def get_neighbors (w h : Nat) (p : Nat × Nat) : List (Nat × Nat) :=
  (DIRECTION_NAMES.bind (fun d =>
    [(pymod ((p.1 : Int) + (DIRECTIONS d).1) w, p.2),
     (p.1, pymod ((p.2 : Int) + (DIRECTIONS d).2) h)])).dedup

/-- `Cell.entropy`: the number of remaining options. -/
def entropy (s : WState) (p : Nat × Nat) : Nat := (s.options p).card

/-- `Cell.collapsed`: `None` if the cell has no options left, otherwise
whether exactly one option remains. -/
def cell_collapsed (s : WState) (p : Nat × Nat) : Option Bool :=
  if entropy s p = 0 then none else some (entropy s p == 1)

/-- Replace one cell's option set (`cell.options = ...`). -/
def setOptions (s : WState) (p : Nat × Nat) (v : Finset Tile) : WState :=
  { s with options := fun q => if q = p then v else s.options q }

/-- `Cell.get_tile`: the unique option of a collapsed cell, `None` otherwise.
Cell options are always drawn from the catalog, so the unique member is looked
up there. -/
def get_tile (s : WState) (p : Nat × Nat) : Option Tile :=
  if cell_collapsed s p == some true then
    s.tiles.find? (fun t => decide (t ∈ s.options p))
  else none

/-- `TileMap._get_uncollapsed_neighbors`: the neighbors for which
`not neighbor.collapsed` holds; `not None` is `True` in Python, so entropy-0
(Invalid) neighbors are included. -/
def uncollapsed_neighbors (s : WState) (p : Nat × Nat) : List (Nat × Nat) :=
  (get_neighbors s.width s.height p).filter (fun n => !(cell_collapsed s n == some true))

/-- `TileMap._get_collapsed_neighbors`: the neighbors for which
`neighbor.collapsed` is truthy, i.e. exactly the entropy-1 neighbors
(`None` is falsy). -/
def collapsed_neighbors (s : WState) (p : Nat × Nat) : List (Nat × Nat) :=
  (get_neighbors s.width s.height p).filter (fun n => cell_collapsed s n == some true)

/-- All cell coordinates in the iteration order of
`[cell for row in self.cells for cell in row]`. -/
def allCoords (s : WState) : List (Nat × Nat) :=
  (List.range s.height).bind (fun y => (List.range s.width).map (fun x => (x, y)))

/-- Python's `min` over a list of naturals (`none` for the empty list, which
the code guards against before calling `min`). -/
def pyMin : List Nat → Option Nat
  | [] => none
  | x :: xs => some (xs.foldl min x)

/-- `TileMap._get_cells_with_minimum_entropy`: among all cells for which
`not cell.collapsed` holds (entropy different from 1, which keeps entropy-0
Invalid cells in the pool), those whose entropy equals the minimum. -/
def get_cells_with_minimum_entropy (s : WState) : Finset (Nat × Nat) :=
  let un := (allCoords s).filter (fun p => !(cell_collapsed s p == some true))
  match pyMin (un.map (fun p => entropy s p)) with
  | none => ∅
  | some m => (un.filter (fun p => entropy s p == m)).toFinset

/-- One direction check of the innermost loop of `TileMap._propagate`: if the
collapsed neighbor `cn` sits at offset `d` from `un` (modulo the toroidal
wrap), intersect `un`'s options with the rule set of `cn`'s tile for the
opposite direction, and if that leaves `un` at entropy 1, append `un` to the
stack and record its pre-intersection options in the history. -/
def prop_dir_step (s : WState) (un cn : Nat × Nat) (tile : Tile)
    (idxd : Nat × Dir) : WState :=
  if cn = (pymod ((un.1 : Int) + (DIRECTIONS idxd.2).1) s.width,
           pymod ((un.2 : Int) + (DIRECTIONS idxd.2).2) s.height) then
    let dir2 := DIRECTION_NAMES.getD ((idxd.1 + 2) % DIRECTION_NAMES.length) Dir.north
    let prior := s.options un
    let s1 := setOptions s un (s.options un ∩ build_rules s.tiles tile.id dir2)
    if entropy s1 un = 1 then
      { s1 with stack := s1.stack ++ [un],
                history := histSet s1.history (s1.gen, un.1, un.2) prior }
    else s1
  else s

/-- Processing of one collapsed neighbor `cn` of `un` inside
`TileMap._propagate` (`tile = collapsed_neighbor.get_tile()`, then the
`enumerate(DIRECTION_NAMES)` loop; a non-collapsed `cn` cannot occur at this
point and is embedded as a no-op). -/
def prop_cn (s : WState) (un cn : Nat × Nat) : WState :=
  match get_tile s cn with
  | some tile =>
      DIRECTION_NAMES.enum.foldl (fun st idxd => prop_dir_step st un cn tile idxd) s
  | none => s

/-- Processing of one uncollapsed neighbor `un` inside `TileMap._propagate`:
its collapsed neighbors are computed at this point (so cells collapsed by
earlier iterations count) and visited in turn. -/
def prop_un (s : WState) (un : Nat × Nat) : WState :=
  (collapsed_neighbors s un).foldl (fun st cn => prop_cn st un cn) s

/-- `TileMap._propagate(collapsed_cell)`: visit every neighbor of the
collapsed cell that is uncollapsed at entry (the iteration order of the
Python sets is unspecified; the embedding fixes the order in which the
candidates are generated). -/
def propagate (s : WState) (c : Nat × Nat) : WState :=
  (uncollapsed_neighbors s c).foldl prop_un s

/-- `Cell.collapse(options)`: Python's `options or self.options` falls back to
the current options when the argument is `None` **or empty** (an empty set is
falsy), and `random().choice(tuple(...))` raises `IndexError` when the chosen
source is empty.  The random choice is abstracted by `pickTile`: Python's
choice is a deterministic function of the iteration order of the set, which
depends on object identity and the per-process hash seed, so any member can be
the one chosen. -/
def collapse (pickTile : Finset Tile → Tile) (forced : Option (Finset Tile))
    (cur : Finset Tile) : Except PyErr (Finset Tile) :=
  let source := match forced with
    | some f => if f = ∅ then cur else f
    | none => cur
  if source = ∅ then Except.error PyErr.indexError
  else Except.ok {pickTile source}

/-- `TileMap.init_cells`: a fresh cell array whose every cell is initialized
with the full catalog; the stack is cleared; `gen` increments to model the
fresh `Cell` objects. -/
def init_cells (s : WState) : WState :=
  { s with gen := s.gen + 1, options := fun _ => s.tiles.toFinset, stack := [] }

/-- The full-restart tail of `TileMap._backtrack` (reached when the stack is
exhausted, when the popped entry is the triggering cell, or when the
contradiction counter exceeds the remaining stack): zero the contradiction
counter, clear the stack, rebuild the cell array.  The `history` dict is not
cleared (its stale entries can never match the fresh cells). -/
def restart_grid (s : WState) : WState :=
  init_cells { s with contradictions := 0, stack := [] }

/-- `TileMap._backtrack(prev)`.  The Python `while` loop executes its body at
most once, because the body ends in an unconditional `return False`: either
the first popped entry triggers a `break` (falling through to the full
restart), or the function returns after restoring a single cell.  Returns the
new state together with the Python return value (`True` iff a full restart
happened). -/
def backtrack (s : WState) (prev : Nat × Nat) : WState × Bool :=
  match s.stack.getLast? with
  | none => (restart_grid s, true)
  | some c =>
    let sPop := { s with stack := s.stack.dropLast }
    if c = prev then (restart_grid sPop, true)
    else
      let pr := histPop sPop.history (sPop.gen, c.1, c.2) sPop.tiles.toFinset
      let s1 := { setOptions sPop c (pr.1 ∩ sPop.options c) with history := pr.2 }
      let s2 := (get_neighbors s1.width s1.height c).foldl
        (fun st n => { setOptions st n st.tiles.toFinset with stack := st.stack.erase n }) s1
      let s3 := propagate s2 c
      if s3.stack.length < s3.contradictions then (restart_grid s3, true)
      else (s3, false)

/-- The `try` body of `TileMap._observe_random_cell`: `cell.collapse()` (no
forced set) followed by propagation from the cell.  The only exception this
body can raise is the `IndexError` out of `random().choice` on an empty
tuple; `_propagate` raises nothing. -/
def observe_try (pickTile : Finset Tile → Tile) (s : WState) (c : Nat × Nat) :
    Except PyErr WState :=
  match collapse pickTile none (s.options c) with
  | Except.error e => Except.error e
  | Except.ok o => Except.ok (propagate (setOptions s c o) c)

/-- `TileMap._observe_random_cell(cells)`: compute the minimum-entropy pool if
none is given, return `None` on an empty pool, otherwise pick a cell at
random, snapshot its options, collapse it and propagate.  The
`except NoSolutionException` handler increments the contradiction counter and
backtracks; any other exception escapes to the caller.  The `else` branch
appends the cell to the stack and records its prior options. -/
def observe_random_cell (pickCell : Finset (Nat × Nat) → Nat × Nat)
    (pickTile : Finset Tile → Tile) (s : WState)
    (cellsArg : Option (Finset (Nat × Nat))) :
    Except PyErr (WState × Option (Nat × Nat)) :=
  let cells := cellsArg.getD (get_cells_with_minimum_entropy s)
  if cells = ∅ then Except.ok (s, none)
  else
    let c := pickCell cells
    let prior := s.options c
    match observe_try pickTile s c with
    | Except.error PyErr.noSolution =>
        Except.ok ((backtrack { s with contradictions := s.contradictions + 1 } c).1, some c)
    | Except.error e => Except.error e
    | Except.ok s2 =>
        Except.ok ({ s2 with stack := s2.stack ++ [c],
                             history := histSet s2.history (s2.gen, c.1, c.2) prior }, some c)

/-- The Decision History of the spec's data model: the chronological sequence
of `(coordinate, prior options)` entries, realized in the code by the `stack`
list ordering the decisions and the `history` dict holding each recorded
cell's prior options. -/
def decisionHistory (s : WState) : List ((Nat × Nat) × Finset Tile) :=
  s.stack.filterMap (fun c => (histGet s.history (s.gen, c.1, c.2)).map (fun v => (c, v)))

/-- One pull of the generation driver, specialized to concrete traces: run one
observation and keep the resulting state (the traces below raise no
exception; an escaped exception leaves the state unchanged here). -/
def step_state (pickCell : Finset (Nat × Nat) → Nat × Nat)
    (pickTile : Finset Tile → Tile) (s : WState) : WState :=
  match observe_random_cell pickCell pickTile s none with
  | Except.ok r => r.1
  | Except.error _ => s

/-- Every cell of the grid is Collapsed: the spec's `Solved` condition. -/
def is_solved (s : WState) : Bool :=
  (allCoords s).all (fun p => entropy s p == 1)

/-- Tile 0 of the spec §8 example catalog: all four edges `"0"`. -/
def t0 : Tile := ⟨0, ['0'], ['0'], ['0'], ['0']⟩

/-- Tile 1 of the spec §8 example catalog: all four edges `"1"`
(self-compatible, incompatible with `t0` on every side). -/
def t1 : Tile := ⟨1, ['1'], ['1'], ['1'], ['1']⟩

/-- A tile distinct from `t0` (different edges) but with the same id,
exhibiting the id-keyed merge in `build_rules`. -/
def t0dup : Tile := ⟨0, ['1'], ['1'], ['1'], ['1']⟩

/-- A freshly constructed 2×2 toroidal `TileMap` over the two-tile example
catalog (`TileMap.__init__`). -/
def init2x2 : WState :=
  { width := 2, height := 2, tiles := [t0, t1], gen := 0,
    options := fun _ => [t0, t1].toFinset, stack := [], history := [],
    contradictions := 0 }

/-- A 2×2 grid in which the two diagonal (hence non-adjacent) cells have been
collapsed to the mutually incompatible tiles `t0` and `t1`. -/
def diagState : WState :=
  { init2x2 with options := fun p =>
      if p = (0, 0) then {t0} else if p = (1, 1) then {t1} else [t0, t1].toFinset }

/-- The state reached by propagating from the collapsed cell `(0, 0)` of
`diagState`: both cells adjacent to the two collapsed ones end with an empty
option set. -/
def contraState : WState := propagate diagState (0, 0)

/-- `init2x2` right after its cell `(0, 0)` was collapsed to `t0` (the state
from which `_observe_random_cell` calls `_propagate`). -/
def afterCollapse00 : WState := setOptions init2x2 (0, 0) {t0}

/-- State after observing cell `(0, 0)` of `init2x2` and collapsing it to
`t0`. -/
def c1sA : WState := step_state (fun _ => (0, 0)) (fun _ => t0) init2x2

/-- State after additionally observing cell `(1, 1)` and collapsing it to
`t1`. -/
def c1sB : WState := step_state (fun _ => (1, 1)) (fun _ => t1) c1sA

/-- A 4×1 grid with three decisions on the stack and a recorded prior-options
entry for the top one, exercising `_backtrack`. -/
def btState : WState :=
  { width := 4, height := 1, tiles := [t0, t1], gen := 0,
    options := fun _ => [t0, t1].toFinset,
    stack := [(0, 0), (1, 0), (3, 0)],
    history := [((0, 3, 0), {t0})],
    contradictions := 0 }

/-- The two compatibility functions agree when the tilemap one is fed the
matching `(index, name)` pair, as both of its call sites do. -/
theorem compatible_eq_are_compatible (a b : Tile) (d : Dir) :
    compatible a b (dirIndex d, d) = are_compatible a b d := by
  cases d <;> rfl

/-- Reversal swaps sides of an equality of edges. -/
theorem rev_eq_comm (x y : List Char) : x = y.reverse ↔ y = x.reverse := by
  constructor <;> intro h <;> simp [h]

/-- C9: for all tiles `a`, `b` and every direction `d`,
`compatible(a, b, d)` holds iff `compatible(b, a, opposite(d))` holds, where
`compatible(a, b, d)` is `a.edges[d] == reverse(b.edges[opposite(d)])`. -/
theorem c9_compatible_symm (a b : Tile) (d : Dir) :
    are_compatible a b d = true ↔ are_compatible b a (oppositeDir d) = true := by
  cases d with
  | north =>
      show (a.north == b.south.reverse) = true ↔ (b.south == a.north.reverse) = true
      simp only [beq_iff_eq]
      exact rev_eq_comm a.north b.south
  | east =>
      show (a.east == b.west.reverse) = true ↔ (b.west == a.east.reverse) = true
      simp only [beq_iff_eq]
      exact rev_eq_comm a.east b.west
  | south =>
      show (a.south == b.north.reverse) = true ↔ (b.north == a.south.reverse) = true
      simp only [beq_iff_eq]
      exact rev_eq_comm a.south b.north
  | west =>
      show (a.west == b.east.reverse) = true ↔ (b.east == a.west.reverse) = true
      simp only [beq_iff_eq]
      exact rev_eq_comm a.west b.east

/-- C1 (code bug): on the 2×2 toroidal grid over the spec §8 example catalog,
observing `(0, 0)` (collapsed to `t0`) and then `(1, 1)` (collapsed to `t1`)
reaches the Solved state — every cell Collapsed and an empty candidate pool —
while the vertically adjacent collapsed cells `(1, 0)` and `(1, 1)` hold the
incompatible resolved tiles `t0` and `t1`.  Terminal correctness fails because
`_propagate` never continues from cells it collapses, so `(1, 1)` is observed
with an unrestricted option set. -/
theorem c1_solved_incompatible :
    is_solved c1sB = true ∧
    get_cells_with_minimum_entropy c1sB = ∅ ∧
    get_tile c1sB (1, 0) = some t0 ∧
    get_tile c1sB (1, 1) = some t1 ∧
    (1, 1) ∈ get_neighbors c1sB.width c1sB.height (1, 0) ∧
    are_compatible t0 t1 Dir.south = false := by
  refine ⟨by decide, by decide, by rfl, by rfl, by decide, by decide⟩

/-- C2 (code bug): observing a cell whose option set became empty during an
earlier propagation raises the builtin `IndexError` out of
`random().choice`, which the `except NoSolutionException` handler in
`_observe_random_cell` does not catch: the exception escapes the engine
instead of being converted into a backtrack (`NoSolutionException` itself is
raised nowhere in the repository). -/
theorem c2_contradiction_escapes :
    observe_random_cell (fun _ => (1, 0)) (fun _ => t0) contraState none =
      Except.error PyErr.indexError := by
  rfl

/-- C3 (code bug): `Cell.collapse` with an empty forced set silently falls
back to the cell's current options (Python's `options or self.options`
treats the empty set as falsy) and succeeds, and when the resulting source is
empty it raises the builtin `IndexError`, not `NoOptionsError`
(`NoSolutionException`). -/
theorem c3_collapse_empty_forced :
    collapse (fun _ => t0) (some (∅ : Finset Tile)) {t0} = Except.ok {t0} ∧
    collapse (fun _ => t0) none (∅ : Finset Tile) = Except.error PyErr.indexError := by
  exact ⟨rfl, rfl⟩

/-- C4 (counterexample): propagating from the collapsed cell `(0, 0)` of
`diagState` drops both of its uncollapsed neighbors to entropy 0 without
signalling any contradiction (`_propagate` raises nothing and leaves the
contradiction counter unchanged); and propagating from `(0, 0)` of
`afterCollapse00` collapses `(1, 0)` to entropy 1 without recursively
continuing from it — its neighbor `(1, 1)` keeps the full catalog even though
the rules of `t0` would restrict it. -/
theorem c4_counterexample :
    (propagate diagState (0, 0)).options (0, 1) = (∅ : Finset Tile) ∧
    (propagate diagState (0, 0)).options (1, 0) = (∅ : Finset Tile) ∧
    (propagate diagState (0, 0)).contradictions = diagState.contradictions ∧
    (propagate afterCollapse00 (0, 0)).options (1, 0) = ({t0} : Finset Tile) ∧
    (propagate afterCollapse00 (0, 0)).options (1, 1) = [t0, t1].toFinset := by
  refine ⟨by decide, by decide, by rfl, by decide, by decide⟩

/-- C5 (counterexample): backtracking `btState` (stack
`[(0,0), (1,0), (3,0)]`, recorded prior options `{t0}` for `(3,0)`) with
triggering cell `(0, 0)` pops only the top entry `(3, 0)` and returns without
restart: the entry `(1, 0)` recorded before the triggering cell is never
popped or restored, the popped cell's options end as the full catalog rather
than the recorded prior set `{t0}`, and the triggering cell's entry is
removed as a neighbor without ever being reached by popping. -/
theorem c5_counterexample :
    (backtrack btState (0, 0)).2 = false ∧
    (1, 0) ∈ (backtrack btState (0, 0)).1.stack ∧
    (backtrack btState (0, 0)).1.options (3, 0) ≠ ({t0} : Finset Tile) ∧
    (backtrack btState (0, 0)).1.options (3, 0) = [t0, t1].toFinset ∧
    (0, 0) ∉ (backtrack btState (0, 0)).1.stack := by
  refine ⟨by rfl, by decide, by decide, by decide, by decide⟩

/-- C7 (counterexample): in `contraState` the cells `(1, 0)` and `(0, 1)`
have empty option sets (entropy 0, Invalid), yet `(1, 0)` is in the candidate
pool returned by `_get_cells_with_minimum_entropy` — `not cell.collapsed`
keeps Invalid cells (whose `collapsed` is `None`) and the minimum is taken
over all of them, so the pool consists exactly of the Invalid cells. -/
theorem c7_counterexample :
    (1, 0) ∈ get_cells_with_minimum_entropy contraState ∧
    entropy contraState (1, 0) = 0 := by
  refine ⟨by decide, by decide⟩

/-- C10 (counterexample): on a catalog containing two distinct tiles with the
same id (`t0` and `t0dup`), the id-keyed table of `TileMap.build_rules` merges
their rule sets, so the entry for `t0.id` differs from
`t0.get_compatible_tiles` as computed by `tileset._build_rules`. -/
theorem c10_counterexample :
    build_rules [t0, t0dup] t0.id Dir.north ≠
      get_compatible_tiles [t0, t0dup] t0 Dir.north := by
  decide

/-- A `foldl` over states preserves any field that every step preserves. -/
theorem foldl_field {α β : Type} (g : WState → β) (f : WState → α → WState)
    (L : List α) (hf : ∀ st a, a ∈ L → g (f st a) = g st) :
    ∀ s, g (L.foldl f s) = g s := by
  induction L with
  | nil => intro s; rfl
  | cons a L ih =>
      intro s
      rw [List.foldl_cons, ih (fun st b hb => hf st b (List.mem_cons_of_mem a hb))]
      exact hf s a (List.mem_cons_self a L)

/-- A `foldl` over states preserves stack membership if every step does. -/
theorem foldl_stack_mono {α : Type} (f : WState → α → WState) (L : List α)
    (hf : ∀ st a, a ∈ L → ∀ q, q ∈ st.stack → q ∈ (f st a).stack) :
    ∀ s q, q ∈ s.stack → q ∈ (L.foldl f s).stack := by
  induction L with
  | nil => intro s q hq; exact hq
  | cons a L ih =>
      intro s q hq
      rw [List.foldl_cons]
      exact ih (fun st b hb => hf st b (List.mem_cons_of_mem a hb)) _ q
        (hf s a (List.mem_cons_self a L) q hq)

/-- One direction step of `_propagate` only touches the options of `un`. -/
theorem prop_dir_step_options_ne (s : WState) (un cn : Nat × Nat) (tile : Tile)
    (idxd : Nat × Dir) (p : Nat × Nat) (hp : p ≠ un) :
    (prop_dir_step s un cn tile idxd).options p = s.options p := by
  unfold prop_dir_step setOptions
  dsimp only
  split
  · split <;> simp [hp]
  · rfl

/-- One direction step of `_propagate` does not change the catalog. -/
theorem prop_dir_step_tiles (s : WState) (un cn : Nat × Nat) (tile : Tile)
    (idxd : Nat × Dir) :
    (prop_dir_step s un cn tile idxd).tiles = s.tiles := by
  unfold prop_dir_step setOptions
  dsimp only
  split
  · split <;> rfl
  · rfl

/-- One direction step of `_propagate` does not change the contradiction
counter. -/
theorem prop_dir_step_contra (s : WState) (un cn : Nat × Nat) (tile : Tile)
    (idxd : Nat × Dir) :
    (prop_dir_step s un cn tile idxd).contradictions = s.contradictions := by
  unfold prop_dir_step setOptions
  dsimp only
  split
  · split <;> rfl
  · rfl

/-- One direction step of `_propagate` only ever appends to the stack. -/
theorem prop_dir_step_stack_mono (s : WState) (un cn : Nat × Nat) (tile : Tile)
    (idxd : Nat × Dir) (q : Nat × Nat) (hq : q ∈ s.stack) :
    q ∈ (prop_dir_step s un cn tile idxd).stack := by
  unfold prop_dir_step setOptions
  dsimp only
  split
  · split
    · exact List.mem_append_left _ hq
    · exact hq
  · exact hq

/-- Processing one collapsed neighbor only touches the options of `un`. -/
theorem prop_cn_options_ne (s : WState) (un cn : Nat × Nat) (p : Nat × Nat)
    (hp : p ≠ un) : (prop_cn s un cn).options p = s.options p := by
  unfold prop_cn
  rcases get_tile s cn with _ | tile
  · rfl
  · exact foldl_field (fun st => st.options p)
      (fun st idxd => prop_dir_step st un cn tile idxd) DIRECTION_NAMES.enum
      (fun st a _ => prop_dir_step_options_ne st un cn tile a p hp) s

/-- Processing one collapsed neighbor does not change the catalog. -/
theorem prop_cn_tiles (s : WState) (un cn : Nat × Nat) :
    (prop_cn s un cn).tiles = s.tiles := by
  unfold prop_cn
  rcases get_tile s cn with _ | tile
  · rfl
  · exact foldl_field (fun st => st.tiles)
      (fun st idxd => prop_dir_step st un cn tile idxd) DIRECTION_NAMES.enum
      (fun st a _ => prop_dir_step_tiles st un cn tile a) s

/-- Processing one collapsed neighbor does not change the contradiction
counter. -/
theorem prop_cn_contra (s : WState) (un cn : Nat × Nat) :
    (prop_cn s un cn).contradictions = s.contradictions := by
  unfold prop_cn
  rcases get_tile s cn with _ | tile
  · rfl
  · exact foldl_field (fun st => st.contradictions)
      (fun st idxd => prop_dir_step st un cn tile idxd) DIRECTION_NAMES.enum
      (fun st a _ => prop_dir_step_contra st un cn tile a) s

/-- Processing one collapsed neighbor only ever appends to the stack. -/
theorem prop_cn_stack_mono (s : WState) (un cn : Nat × Nat) (q : Nat × Nat)
    (hq : q ∈ s.stack) : q ∈ (prop_cn s un cn).stack := by
  unfold prop_cn
  rcases get_tile s cn with _ | tile
  · exact hq
  · exact foldl_stack_mono (fun st idxd => prop_dir_step st un cn tile idxd)
      DIRECTION_NAMES.enum
      (fun st a _ => prop_dir_step_stack_mono st un cn tile a) s q hq

/-- Processing one uncollapsed neighbor only touches that neighbor's
options. -/
theorem prop_un_options_ne (s : WState) (un : Nat × Nat) (p : Nat × Nat)
    (hp : p ≠ un) : (prop_un s un).options p = s.options p := by
  unfold prop_un
  exact foldl_field (fun st => st.options p) (fun st cn => prop_cn st un cn)
    (collapsed_neighbors s un) (fun st a _ => prop_cn_options_ne st un a p hp) s

/-- Processing one uncollapsed neighbor does not change the catalog. -/
theorem prop_un_tiles (s : WState) (un : Nat × Nat) :
    (prop_un s un).tiles = s.tiles := by
  unfold prop_un
  exact foldl_field (fun st => st.tiles) (fun st cn => prop_cn st un cn)
    (collapsed_neighbors s un) (fun st a _ => prop_cn_tiles st un a) s

/-- Processing one uncollapsed neighbor does not change the contradiction
counter. -/
theorem prop_un_contra (s : WState) (un : Nat × Nat) :
    (prop_un s un).contradictions = s.contradictions := by
  unfold prop_un
  exact foldl_field (fun st => st.contradictions) (fun st cn => prop_cn st un cn)
    (collapsed_neighbors s un) (fun st a _ => prop_cn_contra st un a) s

/-- Processing one uncollapsed neighbor only ever appends to the stack. -/
theorem prop_un_stack_mono (s : WState) (un : Nat × Nat) (q : Nat × Nat)
    (hq : q ∈ s.stack) : q ∈ (prop_un s un).stack := by
  unfold prop_un
  exact foldl_stack_mono (fun st cn => prop_cn st un cn) (collapsed_neighbors s un)
    (fun st a _ => prop_cn_stack_mono st un a) s q hq

/-- `_propagate` leaves every cell that is not an uncollapsed neighbor of the
collapsed cell untouched. -/
theorem propagate_options_not_mem (s : WState) (c : Nat × Nat) (p : Nat × Nat)
    (hp : p ∉ uncollapsed_neighbors s c) :
    (propagate s c).options p = s.options p := by
  unfold propagate
  exact foldl_field (fun st => st.options p) prop_un (uncollapsed_neighbors s c)
    (fun st a ha => prop_un_options_ne st a p (fun e => hp (e ▸ ha))) s

/-- `_propagate` leaves every cell outside the neighborhood of the collapsed
cell untouched: it never recurses to cells at distance two or more. -/
theorem propagate_options_not_neighbor (s : WState) (c : Nat × Nat)
    (p : Nat × Nat) (hp : p ∉ get_neighbors s.width s.height c) :
    (propagate s c).options p = s.options p :=
  propagate_options_not_mem s c p (fun h => hp (List.mem_of_mem_filter h))

/-- `_propagate` does not change the catalog. -/
theorem propagate_tiles (s : WState) (c : Nat × Nat) :
    (propagate s c).tiles = s.tiles := by
  unfold propagate
  exact foldl_field (fun st => st.tiles) prop_un (uncollapsed_neighbors s c)
    (fun st a _ => prop_un_tiles st a) s

/-- `_propagate` does not change the contradiction counter. -/
theorem propagate_contradictions (s : WState) (c : Nat × Nat) :
    (propagate s c).contradictions = s.contradictions := by
  unfold propagate
  exact foldl_field (fun st => st.contradictions) prop_un (uncollapsed_neighbors s c)
    (fun st a _ => prop_un_contra st a) s

/-- `_propagate` only ever appends to the stack. -/
theorem propagate_stack_mono (s : WState) (c : Nat × Nat) (q : Nat × Nat)
    (hq : q ∈ s.stack) : q ∈ (propagate s c).stack := by
  unfold propagate
  exact foldl_stack_mono prop_un (uncollapsed_neighbors s c)
    (fun st a _ => prop_un_stack_mono st a) s q hq

/-- C4 (amended): during propagation from a collapsed cell, only that cell's
immediate neighbors can be modified — each uncollapsed neighbor has its
options intersected with the rule sets of its collapsed neighbors, and is
pushed onto the stack with prior options recorded whenever an intersection
leaves it at entropy 1 — but propagation does not recursively continue from a
neighbor that becomes Collapsed (cells not adjacent to the collapsed cell are
never modified in the same call), and a neighbor dropping to entropy 0
signals no contradiction: `_propagate` raises nothing and leaves the
contradiction counter unchanged. -/
theorem c4_amended (s : WState) (c p : Nat × Nat)
    (hp : p ∉ get_neighbors s.width s.height c) :
    (propagate s c).contradictions = s.contradictions ∧
    (propagate s c).options p = s.options p :=
  ⟨propagate_contradictions s c, propagate_options_not_neighbor s c p hp⟩

/-- Witness for the amended C4 at a concrete input. -/
theorem c4_amended_witness :
    ((1, 1) ∉ get_neighbors diagState.width diagState.height (0, 0)) ∧
    (propagate diagState (0, 0)).contradictions = diagState.contradictions ∧
    (propagate diagState (0, 0)).options (1, 1) = diagState.options (1, 1) := by
  have h := c4_amended diagState (0, 0) (1, 1) (by decide)
  exact ⟨by decide, h.1, h.2⟩

/-- The neighbor-reset fold of `_backtrack` does not change the catalog. -/
theorem reset_fold_tiles (ns : List (Nat × Nat)) (s : WState) :
    (ns.foldl (fun st n =>
      { setOptions st n st.tiles.toFinset with stack := st.stack.erase n }) s).tiles
      = s.tiles :=
  foldl_field (fun st => st.tiles)
    (fun st n => { setOptions st n st.tiles.toFinset with stack := st.stack.erase n })
    ns (fun st a _ => rfl) s

/-- The neighbor-reset fold of `_backtrack` keeps every stack entry that is
not one of the reset neighbors. -/
theorem reset_fold_stack_mem (ns : List (Nat × Nat)) (p : Nat × Nat)
    (hp : p ∉ ns) :
    ∀ s : WState, p ∈ s.stack →
      p ∈ (ns.foldl (fun st n =>
        { setOptions st n st.tiles.toFinset with stack := st.stack.erase n }) s).stack := by
  induction ns with
  | nil => intro s hq; exact hq
  | cons n ns ih =>
      intro s hq
      rw [List.foldl_cons]
      refine ih (fun hmem => hp (List.mem_cons_of_mem _ hmem)) _ ?_
      show p ∈ s.stack.erase n
      have hne : p ≠ n := fun e => hp (e ▸ List.mem_cons_self n ns)
      exact (List.mem_erase_of_ne hne).mpr hq

/-- `_backtrack` either performs a full restart — of a state with the same
catalog — and returns `True`, or returns `False`. -/
theorem backtrack_cases (s : WState) (prev : Nat × Nat) :
    (∃ s', s'.tiles = s.tiles ∧ backtrack s prev = (restart_grid s', true)) ∨
    (backtrack s prev).2 = false := by
  rcases hL : s.stack.getLast? with _ | c
  · left
    refine ⟨s, rfl, ?_⟩
    simp only [backtrack, hL]
  · by_cases hc : c = prev
    · left
      refine ⟨{ s with stack := s.stack.dropLast }, rfl, ?_⟩
      simp only [backtrack, hL]
      rw [if_pos hc]
    · simp only [backtrack, hL]
      rw [if_neg hc]
      split
      · left
        refine ⟨_, ?_, rfl⟩
        rw [propagate_tiles, reset_fold_tiles]
        rfl
      · right
        rfl

/-- The Decision History sequence is empty whenever the stack is. -/
theorem decisionHistory_nil (s : WState) (h : s.stack = []) :
    decisionHistory s = [] := by
  unfold decisionHistory
  rw [h]
  rfl

/-- C6: immediately after the full-grid restart branch of `_backtrack`,
every cell's option set equals the full tile catalog (so every cell's entropy
equals the catalog size), the Decision History is empty, and the failure
(`contradictions`) counter is zero. -/
theorem c6_restart (s : WState) (prev : Nat × Nat)
    (h : (backtrack s prev).2 = true) :
    (∀ p, (backtrack s prev).1.options p = s.tiles.toFinset) ∧
    (∀ p, entropy (backtrack s prev).1 p = s.tiles.toFinset.card) ∧
    decisionHistory (backtrack s prev).1 = [] ∧
    (backtrack s prev).1.stack = [] ∧
    (backtrack s prev).1.contradictions = 0 := by
  rcases backtrack_cases s prev with ⟨s', hts, heq⟩ | hfalse
  · rw [heq]
    have hopts : ∀ p, (restart_grid s').options p = s.tiles.toFinset := by
      intro p
      show s'.tiles.toFinset = s.tiles.toFinset
      rw [hts]
    refine ⟨hopts, fun p => ?_, ?_, rfl, rfl⟩
    · show ((restart_grid s').options p).card = s.tiles.toFinset.card
      rw [hopts p]
    · exact decisionHistory_nil _ rfl
  · rw [hfalse] at h
    exact Bool.noConfusion h

/-- Witness for C6 at a concrete input (backtracking with an exhausted
stack restarts the grid). -/
theorem c6_restart_witness :
    (backtrack init2x2 (0, 0)).2 = true ∧
    (backtrack init2x2 (0, 0)).1.options (1, 1) = init2x2.tiles.toFinset ∧
    entropy (backtrack init2x2 (0, 0)).1 (0, 1) = init2x2.tiles.toFinset.card ∧
    decisionHistory (backtrack init2x2 (0, 0)).1 = [] ∧
    (backtrack init2x2 (0, 0)).1.contradictions = 0 := by
  have h := c6_restart init2x2 (0, 0) (by rfl)
  exact ⟨by rfl, h.1 (1, 1), h.2.1 (0, 1), h.2.2.1, h.2.2.2.2⟩

/-- C5 (amended): `_backtrack` pops at most the top Decision History entry per
invocation — when it returns without a full restart, the popped entry was not
the triggering cell, and every deeper stack entry that is not a grid neighbor
of the popped cell remains on the stack, unpopped and unrestored; popping
never continues down to the triggering cell (reaching it on the first pop
instead causes a full-grid restart).  The popped cell itself is restored to
its recorded prior options intersected with its current ones, and is then
reset to the full catalog together with all its neighbors. -/
theorem c5_amended (s : WState) (prev : Nat × Nat) (L : List (Nat × Nat))
    (c : Nat × Nat) (hs : s.stack = L ++ [c])
    (hb : (backtrack s prev).2 = false) :
    c ≠ prev ∧
    ∀ p ∈ L, p ∉ get_neighbors s.width s.height c →
      p ∈ (backtrack s prev).1.stack := by
  have hL : s.stack.getLast? = some c := by
    rw [hs]
    exact List.getLast?_concat L
  have hdrop : s.stack.dropLast = L := by
    rw [hs]
    exact List.dropLast_concat
  by_cases hc : c = prev
  · have htrue : (backtrack s prev).2 = true := by
      simp only [backtrack, hL]
      rw [if_pos hc]
    rw [htrue] at hb
    exact Bool.noConfusion hb
  · refine ⟨hc, ?_⟩
    intro p hpL hpN
    simp only [backtrack, hL] at hb ⊢
    rw [if_neg hc] at hb ⊢
    split at hb
    · exact Bool.noConfusion hb
    · rename_i hcond
      rw [if_neg hcond]
      dsimp only
      apply propagate_stack_mono
      apply reset_fold_stack_mem _ _ hpN
      exact hdrop ▸ hpL

/-- Witness for the amended C5 at a concrete input. -/
theorem c5_amended_witness :
    btState.stack = [(0, 0), (1, 0)] ++ [(3, 0)] ∧
    (backtrack btState (0, 0)).2 = false ∧
    ((3, 0) : Nat × Nat) ≠ (0, 0) ∧
    (1, 0) ∈ (backtrack btState (0, 0)).1.stack := by
  have h := c5_amended btState (0, 0) [(0, 0), (1, 0)] (3, 0) (by rfl) (by rfl)
  exact ⟨by rfl, by rfl, h.1, h.2 (1, 0) (by decide) (by decide)⟩

/-- The running `foldl min` is a lower bound of its seed and of the list. -/
theorem foldl_min_le (xs : List Nat) (x : Nat) :
    xs.foldl min x ≤ x ∧ ∀ b ∈ xs, xs.foldl min x ≤ b := by
  induction xs generalizing x with
  | nil =>
      refine ⟨Nat.le_refl x, ?_⟩
      intro b hb
      cases hb
  | cons y ys ih =>
      refine ⟨((ih (min x y)).1).trans (Nat.min_le_left x y), ?_⟩
      intro b hb
      rcases List.mem_cons.mp hb with rfl | hb
      · exact ((ih (min x b)).1).trans (Nat.min_le_right x b)
      · exact (ih (min x y)).2 b hb

/-- The running `foldl min` is attained by the seed or by a list element. -/
theorem foldl_min_mem (xs : List Nat) (x : Nat) :
    xs.foldl min x = x ∨ xs.foldl min x ∈ xs := by
  induction xs generalizing x with
  | nil => exact Or.inl rfl
  | cons y ys ih =>
      rcases ih (min x y) with h | h
      · rcases min_choice x y with h2 | h2
        · exact Or.inl (by rw [List.foldl_cons, h, h2])
        · exact Or.inr (by rw [List.foldl_cons, h, h2]; exact List.mem_cons_self y ys)
      · exact Or.inr (List.mem_cons_of_mem y h)

/-- Python's `min` of a list bounds every element from below. -/
theorem pyMin_le (l : List Nat) (m : Nat) (h : pyMin l = some m) :
    ∀ b ∈ l, m ≤ b := by
  cases l with
  | nil => cases h
  | cons x xs =>
      have hm : m = xs.foldl min x := by
        have := h
        unfold pyMin at this
        exact (Option.some.injEq _ _ ▸ this).symm
      intro b hb
      rcases List.mem_cons.mp hb with rfl | hb
      · rw [hm]; exact (foldl_min_le xs b).1
      · rw [hm]; exact (foldl_min_le xs x).2 b hb

/-- Python's `min` of a list is one of its elements. -/
theorem pyMin_mem (l : List Nat) (m : Nat) (h : pyMin l = some m) : m ∈ l := by
  cases l with
  | nil => cases h
  | cons x xs =>
      have hm : m = xs.foldl min x := by
        have := h
        unfold pyMin at this
        exact (Option.some.injEq _ _ ▸ this).symm
      rcases foldl_min_mem xs x with h2 | h2
      · rw [hm, h2]; exact List.mem_cons_self x xs
      · rw [hm]; exact List.mem_cons_of_mem x h2

/-- The Boolean collapsed test of the pool filter holds exactly at
entropy 1. -/
theorem collapsed_beq_true (s : WState) (p : Nat × Nat) :
    ((cell_collapsed s p == some true) = true) ↔ entropy s p = 1 := by
  unfold cell_collapsed
  by_cases h1 : entropy s p = 1
  · rw [if_neg (by omega)]
    simp [h1]
  · by_cases h0 : entropy s p = 0
    · rw [if_pos h0]
      constructor
      · intro h
        exact Bool.noConfusion h
      · intro h
        exact absurd h h1
    · rw [if_neg h0]
      constructor
      · intro h
        have h' : ((entropy s p == 1) == true) = true := h
        have h'' : (entropy s p == 1) = true := eq_of_beq h'
        exact eq_of_beq h''
      · intro h
        exact absurd h h1

/-- The Boolean `not cell.collapsed` filter keeps exactly the cells whose
entropy differs from 1 (entropy-0 cells, whose `collapsed` is `None`,
included). -/
theorem not_collapsed_filter (s : WState) (p : Nat × Nat) :
    ((!(cell_collapsed s p == some true)) = true) ↔ entropy s p ≠ 1 := by
  constructor
  · intro h he
    rw [(collapsed_beq_true s p).mpr he] at h
    exact Bool.noConfusion h
  · intro h
    cases hb : (cell_collapsed s p == some true) with
    | false => rfl
    | true => exact absurd ((collapsed_beq_true s p).mp hb) h

/-- C7 (amended): the candidate pool of `_get_cells_with_minimum_entropy`
consists of exactly the cells whose entropy differs from 1 (so Collapsed
cells are excluded but Invalid, entropy-0, cells are included) and whose
entropy is minimal among all such cells. -/
theorem c7_amended (s : WState) (c : Nat × Nat) :
    c ∈ get_cells_with_minimum_entropy s ↔
      c ∈ allCoords s ∧ entropy s c ≠ 1 ∧
      ∀ p ∈ allCoords s, entropy s p ≠ 1 → entropy s c ≤ entropy s p := by
  unfold get_cells_with_minimum_entropy
  have memun : ∀ p : Nat × Nat,
      (p ∈ (allCoords s).filter (fun q => !(cell_collapsed s q == some true))) ↔
        (p ∈ allCoords s ∧ entropy s p ≠ 1) := by
    intro p
    rw [List.mem_filter]
    exact and_congr_right (fun _ => not_collapsed_filter s p)
  rcases hm : pyMin (((allCoords s).filter
      (fun q => !(cell_collapsed s q == some true))).map (fun p => entropy s p))
      with _ | m
  · rcases hcase : (allCoords s).filter (fun q => !(cell_collapsed s q == some true))
        with _ | ⟨x, xs⟩
    · simp only [hm]
      constructor
      · intro h
        exact absurd h (Finset.not_mem_empty c)
      · rintro ⟨h1, h2, _⟩
        have : c ∈ ([] : List (Nat × Nat)) := hcase ▸ (memun c).mpr ⟨h1, h2⟩
        cases this
    · rw [hcase] at hm
      cases hm
  · simp only [hm]
    rw [List.mem_toFinset, List.mem_filter]
    constructor
    · rintro ⟨hcun, hce⟩
      have hce' : entropy s c = m := eq_of_beq hce
      rcases (memun c).mp hcun with ⟨hall, hne⟩
      refine ⟨hall, hne, ?_⟩
      intro p hp hpne
      have hpin := (memun p).mpr ⟨hp, hpne⟩
      have hmle : m ≤ entropy s p :=
        pyMin_le _ m hm _ (List.mem_map_of_mem (fun q => entropy s q) hpin)
      omega
    · rintro ⟨hall, hne, hmin⟩
      have hcun := (memun c).mpr ⟨hall, hne⟩
      have hle : m ≤ entropy s c :=
        pyMin_le _ m hm _ (List.mem_map_of_mem (fun q => entropy s q) hcun)
      have hge : entropy s c ≤ m := by
        rcases List.mem_map.mp (pyMin_mem _ m hm) with ⟨p0, hp0, he0⟩
        rcases (memun p0).mp hp0 with ⟨hp0all, hp0ne⟩
        have := hmin p0 hp0all hp0ne
        omega
      refine ⟨hcun, ?_⟩
      have heq : entropy s c = m := by omega
      rw [heq]
      exact beq_self_eq_true m

/-- C10 (amended): on every catalog whose tiles have pairwise-distinct ids —
the invariant the spec requires of a Tile Catalog — the two adjacency-rule
compilers agree: for every tile `t` of the catalog and every direction `d`,
the id-keyed table entry of `TileMap.build_rules` equals the per-tile rule set
computed by `tileset._build_rules`. -/
theorem c10_amended (T : List Tile) (t : Tile) (d : Dir)
    (hinj : ∀ a ∈ T, ∀ b ∈ T, a.id = b.id → a = b) (ht : t ∈ T) :
    build_rules T t.id d = get_compatible_tiles T t d := by
  unfold build_rules get_compatible_tiles
  apply Finset.ext
  intro b
  rw [List.mem_toFinset, List.mem_toFinset, List.mem_filter, List.mem_filter]
  constructor
  · rintro ⟨hbT, hany⟩
    refine ⟨hbT, ?_⟩
    rcases List.any_eq_true.mp hany with ⟨a, haT, hapred⟩
    rw [Bool.and_eq_true] at hapred
    rcases hapred with ⟨haid, hcomp⟩
    have haeq : a = t := hinj a haT t ht (eq_of_beq haid)
    rw [haeq, compatible_eq_are_compatible] at hcomp
    exact hcomp
  · rintro ⟨hbT, hcomp⟩
    refine ⟨hbT, ?_⟩
    apply List.any_eq_true.mpr
    refine ⟨t, ht, ?_⟩
    rw [Bool.and_eq_true]
    refine ⟨beq_self_eq_true t.id, ?_⟩
    rw [compatible_eq_are_compatible]
    exact hcomp

/-- Witness for the amended C10 at a concrete input. -/
theorem c10_amended_witness :
    (∀ a ∈ [t0, t1], ∀ b ∈ [t0, t1], a.id = b.id → a = b) ∧
    t0 ∈ [t0, t1] ∧
    build_rules [t0, t1] t0.id Dir.east = get_compatible_tiles [t0, t1] t0 Dir.east := by
  exact ⟨by decide, by decide,
    c10_amended [t0, t1] t0 Dir.east (by decide) (by decide)⟩
